import Mathlib

/-!
Shallow embedding of the analytical core of the CMPS3400 inventory project
(`inventory_numeric.py`, `inventory_categorical.py`, `inventory_vector.py`,
`ui.py`, `data_ingestion.py`).

Modelling conventions:
* a pandas `DataFrame` of inventory rows is a `List` of record structures;
* column values that the source reads from CSV as floats are modelled as
  exact rationals (`ℚ`) for the table statistics, and as real numbers (`ℝ`)
  for the vector algebra, where `sqrt`/`acos` force `ℝ`;
* a pandas reduction that yields `NaN` is modelled as `Option.none`;
* a raised Python exception is modelled with `Except`;
* `pandas.unique` keeps values in first-seen order: `uniqueFS` below;
* `pandas.groupby(...).size()` sorts the group keys ascending and counts
  the rows of each group: `countBy` below.
-/

/-- First-seen distinct values of a list: the model of
`pandas.Series.unique()` (`vals = self._data[col].dropna().unique().tolist()`
in `inventory_vector.py`; the modelled columns carry no nulls). -/
def uniqueFS {α : Type*} [DecidableEq α] : List α → List α
  | [] => []
  | a :: l => a :: uniqueFS (l.filter (fun b => decide (b ≠ a)))
termination_by l => l.length
decreasing_by
  simp only [List.length_cons]
  exact Nat.lt_succ_of_le (List.length_filter_le _ _)

theorem mem_uniqueFS {α : Type*} [DecidableEq α] (l : List α) (x : α) :
    x ∈ uniqueFS l ↔ x ∈ l := by
  induction l using uniqueFS.induct with
  | case1 => simp [uniqueFS]
  | case2 a l ih =>
    rw [uniqueFS]
    by_cases hx : x = a
    · simp [hx]
    · simp only [List.mem_cons, ih, List.mem_filter, decide_eq_true_eq]
      constructor
      · rintro (rfl | ⟨h, _⟩)
        · exact Or.inl rfl
        · exact Or.inr h
      · rintro (rfl | h)
        · exact Or.inl rfl
        · exact Or.inr ⟨h, hx⟩

theorem nodup_uniqueFS {α : Type*} [DecidableEq α] (l : List α) :
    (uniqueFS l).Nodup := by
  induction l using uniqueFS.induct with
  | case1 => simp [uniqueFS]
  | case2 a l ih =>
    rw [uniqueFS]
    refine List.nodup_cons.mpr ⟨?_, ih⟩
    intro hmem
    have := (mem_uniqueFS _ a).mp hmem
    have := (List.mem_filter.mp this).2
    simp at this

theorem count_add_length_filter_ne {α : Type*} [DecidableEq α] (a : α) (l : List α) :
    l.count a + (l.filter (fun b => decide (b ≠ a))).length = l.length := by
  induction l with
  | nil => simp
  | cons x l ih =>
    simp only [decide_not] at ih ⊢
    by_cases hx : x = a <;>
      simp [List.count_cons, List.filter_cons, hx] <;> omega

/-- Each element of a list is counted once by the pass over its first-seen
distinct values: the total of the per-value counts is the length. -/
theorem sum_count_uniqueFS {α : Type*} [DecidableEq α] (l : List α) :
    ((uniqueFS l).map (fun k => l.count k)).sum = l.length := by
  induction l using uniqueFS.induct with
  | case1 => simp [uniqueFS]
  | case2 a l ih =>
    rw [uniqueFS]
    have hcong :
        (uniqueFS (l.filter (fun b => decide (b ≠ a)))).map
            (fun k => (a :: l).count k) =
          (uniqueFS (l.filter (fun b => decide (b ≠ a)))).map
            (fun k => (l.filter (fun b => decide (b ≠ a))).count k) := by
      refine List.map_congr_left ?_
      intro k hk
      have hk2 : k ∈ l.filter (fun b => decide (b ≠ a)) :=
        (mem_uniqueFS _ k).mp hk
      have hka : k ≠ a := by
        have := (List.mem_filter.mp hk2).2
        simpa using this
      rw [List.count_cons_of_ne hka, List.count_filter]
      simp [hka]
    rw [List.map_cons, List.sum_cons, hcong, ih, List.count_cons_self]
    have := count_add_length_filter_ne a l
    simp only [List.length_cons]
    omega

/-- Model, as `countBy r keys`, of `DataFrame.groupby(col).size()` applied to a key
column: the distinct keys sorted ascending by `r` (pandas `groupby` sorts the
group keys by default), each paired with its number of occurrences. -/
def countBy {K : Type*} [DecidableEq K] (r : K → K → Prop) [DecidableRel r]
    (keys : List K) : List (K × ℕ) :=
  (List.insertionSort r (uniqueFS keys)).map (fun k => (k, keys.count k))

theorem mem_countBy {K : Type*} [DecidableEq K] (r : K → K → Prop) [DecidableRel r]
    (keys : List K) (k : K) (c : ℕ) :
    (k, c) ∈ countBy r keys ↔ k ∈ keys ∧ c = keys.count k := by
  unfold countBy
  rw [List.mem_map]
  constructor
  · rintro ⟨k', hk', hpair⟩
    have hmem : k' ∈ uniqueFS keys := (List.perm_insertionSort r _).mem_iff.mp hk'
    have h1 : k' = k := congrArg Prod.fst hpair
    have h2 : keys.count k' = c := congrArg Prod.snd hpair
    subst h1
    exact ⟨(mem_uniqueFS _ _).mp hmem, h2.symm⟩
  · rintro ⟨hk, rfl⟩
    refine ⟨k, ?_, rfl⟩
    exact (List.perm_insertionSort r _).mem_iff.mpr ((mem_uniqueFS _ k).mpr hk)

theorem sum_counts_countBy {K : Type*} [DecidableEq K] (r : K → K → Prop)
    [DecidableRel r] (keys : List K) :
    ((countBy r keys).map Prod.snd).sum = keys.length := by
  unfold countBy
  rw [List.map_map]
  have hperm :
      List.Perm
        ((List.insertionSort r (uniqueFS keys)).map (Prod.snd ∘ fun k => (k, keys.count k)))
        ((uniqueFS keys).map (Prod.snd ∘ fun k => (k, keys.count k))) :=
    (List.perm_insertionSort r _).map _
  rw [hperm.sum_eq]
  simpa using sum_count_uniqueFS keys

/-- Mirror of Python `itertools.combinations(l, r)`: all `r`-length
subsequences of `l`, emitted with the first element chosen as early as
possible (the lexicographic-by-position order of `itertools`). -/
def combos {α : Type*} : ℕ → List α → List (List α)
  | 0, _ => [[]]
  | _ + 1, [] => []
  | r + 1, a :: l => ((combos r l).map (fun s => a :: s)) ++ combos (r + 1) l

/-- Pairing, by `picks l`, of every element of `l` with the list obtained by removing it
at its position (order of the rest preserved); the auxiliary shape behind
`itertools.permutations`. -/
def picks {α : Type*} : List α → List (α × List α)
  | [] => []
  | a :: l => (a, l) :: (picks l).map (fun p => (p.1, a :: p.2))

/-- Mirror of Python `itertools.permutations(l, r)`: all `r`-length
arrangements of distinct positions of `l`, in lexicographic-by-position
order. -/
def perms {α : Type*} : ℕ → List α → List (List α)
  | 0, _ => [[]]
  | r + 1, l => (picks l).flatMap (fun p => (perms r p.2).map (fun s => p.1 :: s))

theorem mem_combos {α : Type*} :
    ∀ (l : List α) (r : ℕ) (s : List α),
      s ∈ combos r l ↔ s.Sublist l ∧ s.length = r := by
  intro l
  induction l with
  | nil =>
    intro r s
    cases r with
    | zero =>
      simp only [combos, List.mem_singleton]
      constructor
      · rintro rfl; exact ⟨List.nil_sublist _, rfl⟩
      · rintro ⟨hs, hlen⟩
        exact List.length_eq_zero.mp hlen
    | succ r =>
      simp only [combos, List.not_mem_nil, false_iff, not_and]
      intro hs hlen
      have := List.sublist_nil.mp hs
      subst this
      simp at hlen
  | cons a l ih =>
    intro r s
    cases r with
    | zero =>
      simp only [combos, List.mem_singleton]
      constructor
      · rintro rfl; exact ⟨List.nil_sublist _, rfl⟩
      · rintro ⟨_, hlen⟩
        exact List.length_eq_zero.mp hlen
    | succ r =>
      simp only [combos, List.mem_append, List.mem_map]
      constructor
      · rintro (⟨u, hu, rfl⟩ | hmem)
        · obtain ⟨hsub, hlen⟩ := (ih r u).mp hu
          exact ⟨List.cons_sublist_cons.mpr hsub, by simp [hlen]⟩
        · obtain ⟨hsub, hlen⟩ := (ih (r + 1) s).mp hmem
          exact ⟨hsub.trans (List.sublist_cons_self a l), hlen⟩
      · rintro ⟨hsub, hlen⟩
        rcases List.sublist_cons_iff.mp hsub with h | ⟨u, rfl, hu⟩
        · exact Or.inr ((ih (r + 1) s).mpr ⟨h, hlen⟩)
        · refine Or.inl ⟨u, (ih r u).mpr ⟨hu, ?_⟩, rfl⟩
          simpa using hlen

theorem mem_picks {α : Type*} (l : List α) (x : α) (rest : List α) :
    (x, rest) ∈ picks l ↔ ∃ l1 l2, l = l1 ++ x :: l2 ∧ rest = l1 ++ l2 := by
  induction l generalizing x rest with
  | nil => simp [picks]
  | cons a l ih =>
    simp only [picks, List.mem_cons, List.mem_map]
    constructor
    · rintro (h | ⟨⟨y, ys⟩, hmem, h⟩)
      · cases h
        exact ⟨[], l, rfl, rfl⟩
      · have h1 : y = x := congrArg Prod.fst h
        have h2 : a :: ys = rest := congrArg Prod.snd h
        subst h1
        subst h2
        obtain ⟨l1, l2, hl, hr⟩ := (ih y ys).mp hmem
        exact ⟨a :: l1, l2, by rw [List.cons_append, hl], by rw [List.cons_append, hr]⟩
    · rintro ⟨l1, l2, hl, hr⟩
      cases l1 with
      | nil =>
        simp only [List.nil_append] at hl hr
        obtain ⟨rfl, rfl⟩ := List.cons_eq_cons.mp hl
        subst hr
        exact Or.inl rfl
      | cons b l1 =>
        rw [List.cons_append] at hl
        obtain ⟨rfl, hl2⟩ := List.cons_eq_cons.mp hl
        subst hr
        exact Or.inr ⟨(x, l1 ++ l2), (ih x _).mpr ⟨l1, l2, hl2, rfl⟩, rfl⟩

theorem mem_perms {α : Type*} :
    ∀ (r : ℕ) (l s : List α), l.Nodup →
      (s ∈ perms r l ↔ s.length = r ∧ s.Nodup ∧ s ⊆ l) := by
  intro r
  induction r with
  | zero =>
    intro l s _
    simp only [perms, List.mem_singleton]
    constructor
    · rintro rfl
      exact ⟨rfl, List.nodup_nil, List.nil_subset l⟩
    · rintro ⟨hlen, -, -⟩
      exact List.length_eq_zero.mp hlen
  | succ r ih =>
    intro l s hl
    simp only [perms, List.mem_flatMap, List.mem_map]
    constructor
    · rintro ⟨⟨x, rest⟩, hpick, u, hu, rfl⟩
      obtain ⟨l1, l2, rfl, hrest⟩ := (mem_picks l x rest).mp hpick
      subst hrest
      obtain ⟨hn1, hn2, hdisj⟩ := List.nodup_append.mp hl
      obtain ⟨hxl2, hn2t⟩ := List.nodup_cons.mp hn2
      have hxl1 : x ∉ l1 := fun hmem => hdisj hmem (List.mem_cons_self x l2)
      have hrest_nodup : (l1 ++ l2).Nodup :=
        List.nodup_append.mpr
          ⟨hn1, hn2t, fun {y} hy1 hy2 => hdisj hy1 (List.mem_cons_of_mem x hy2)⟩
      obtain ⟨hul, hund, husub⟩ := (ih _ u hrest_nodup).mp hu
      refine ⟨by simp [hul], ?_, ?_⟩
      · refine List.nodup_cons.mpr ⟨fun hxu => ?_, hund⟩
        rcases List.mem_append.mp (husub hxu) with h | h
        · exact hxl1 h
        · exact hxl2 h
      · intro y hy
        rcases List.mem_cons.mp hy with rfl | hy
        · exact List.mem_append.mpr (Or.inr (List.mem_cons_self y l2))
        · rcases List.mem_append.mp (husub hy) with h | h
          · exact List.mem_append.mpr (Or.inl h)
          · exact List.mem_append.mpr (Or.inr (List.mem_cons_of_mem x h))
    · rintro ⟨hlen, hnd, hsub⟩
      cases s with
      | nil => simp at hlen
      | cons x u =>
        have hx : x ∈ l := hsub (List.mem_cons_self x u)
        obtain ⟨l1, l2, rfl⟩ := List.append_of_mem hx
        obtain ⟨hn1, hn2, hdisj⟩ := List.nodup_append.mp hl
        obtain ⟨hxl2, hn2t⟩ := List.nodup_cons.mp hn2
        have hrest_nodup : (l1 ++ l2).Nodup :=
          List.nodup_append.mpr
            ⟨hn1, hn2t, fun {y} hy1 hy2 => hdisj hy1 (List.mem_cons_of_mem x hy2)⟩
        have hxu : x ∉ u := (List.nodup_cons.mp hnd).1
        have husub : u ⊆ l1 ++ l2 := by
          intro y hy
          rcases List.mem_append.mp (hsub (List.mem_cons_of_mem x hy)) with h | h
          · exact List.mem_append.mpr (Or.inl h)
          · rcases List.mem_cons.mp h with rfl | h
            · exact absurd hy hxu
            · exact List.mem_append.mpr (Or.inr h)
        refine ⟨(x, l1 ++ l2), (mem_picks _ x _).mpr ⟨l1, l2, rfl, rfl⟩, u,
          (ih _ u hrest_nodup).mpr ⟨?_, (List.nodup_cons.mp hnd).2, husub⟩, rfl⟩
        simpa using hlen

/-! ## Numeric inventory table (`inventory_numeric.py`) -/

/-- One row of the numeric inventory table: the required columns checked in
`InventoryNumeric.__init__` (`ProductID`, `Stock`, `Price`, `ReorderLevel`).
Prices read from CSV are decimal floats, modelled as exact rationals. -/
structure NumRow where
  productID : ℤ
  stock : ℤ
  price : ℚ
  reorderLevel : ℤ
deriving DecidableEq

/-- Model of `InventoryNumericProcessor.items_below_reorder`:
`self._data.query("Stock < ReorderLevel")`. -/
def items_below_reorder (t : List NumRow) : List NumRow :=
  t.filter (fun r => decide (r.stock < r.reorderLevel))

/-- Model of `InventoryNumeric.calculate_total_stock`: `int(self._data['Stock'].sum())`.
pandas defines the sum of an empty column as `0`, so the `int(...)` conversion
always succeeds; `none` would model a NaN result, which never occurs here. -/
def calculate_total_stock (t : List NumRow) : Option ℤ :=
  some ((t.map (fun r => r.stock)).sum)

/-- Model of `InventoryNumeric.calculate_average_price`:
`float(self._data['Price'].mean())`; pandas `mean` of an empty column is
NaN (`none`). -/
def calculate_average_price (t : List NumRow) : Option ℚ :=
  if t.length = 0 then none
  else some ((t.map (fun r => r.price)).sum / (t.length : ℚ))

/-- Model of `InventoryNumeric.calculate_median_price`:
`float(self._data['Price'].median())`; pandas `median` of an empty column is
NaN (`none`), otherwise the middle of the sorted column (mean of the two
middles for an even length). The `getD` default is never reached: both
indices are below the length of the sorted list. -/
def calculate_median_price (t : List NumRow) : Option ℚ :=
  let s := List.insertionSort (fun a b => a ≤ b) (t.map (fun r => r.price))
  if t.length = 0 then none
  else if t.length % 2 = 1 then some (s.getD (t.length / 2) 0)
  else some ((s.getD (t.length / 2 - 1) 0 + s.getD (t.length / 2) 0) / 2)

/-- Model of `InventoryNumeric.calculate_std_price`:
`float(self._data['Price'].std())`; pandas `std` uses `ddof=1`, so a column
with fewer than two entries (in particular an empty one) gives NaN (`none`). -/
noncomputable def calculate_std_price (t : List NumRow) : Option ℝ :=
  if t.length ≤ 1 then none
  else
    some (Real.sqrt
      (((t.map (fun r =>
          ((r.price : ℝ) - (t.map (fun q => (q.price : ℝ))).sum / (t.length : ℝ)) ^ 2)).sum)
        / ((t.length : ℝ) - 1)))

/-! ## Categorical inventory table (`inventory_categorical.py`) -/

/-- The `HazardClass` column holds one of `A`, `B`, `C`, `D`. -/
inductive HazardClass where
  | A
  | B
  | C
  | D
deriving DecidableEq

def HazardClass.toNat : HazardClass → ℕ
  | .A => 0
  | .B => 1
  | .C => 2
  | .D => 3

instance : LinearOrder HazardClass :=
  LinearOrder.lift' HazardClass.toNat (by
    intro a b h
    cases a <;> cases b <;> simp_all [HazardClass.toNat])

/-- One row of the categorical inventory table: the required columns checked
in `InventoryCategorical.__init__`. -/
structure CatRow where
  productID : ℤ
  productName : String
  category : String
  hazardClass : HazardClass
  supplier : String
deriving DecidableEq

/-- Model of `InventoryCategorical.count_by_category`:
`self.data.groupby("Category").size()`. -/
def count_by_category (t : List CatRow) : List (String × ℕ) :=
  countBy (fun a b => a ≤ b) (t.map (fun r => r.category))

/-- Model of `InventoryCategorical.count_by_supplier`:
`self.data.groupby("Supplier").size()`. -/
def count_by_supplier (t : List CatRow) : List (String × ℕ) :=
  countBy (fun a b => a ≤ b) (t.map (fun r => r.supplier))

/-- Model of `InventoryCategoricalProcessor.count_by_hazard_class`:
`self.data.groupby("HazardClass").size()`. -/
def count_by_hazard_class (t : List CatRow) : List (HazardClass × ℕ) :=
  countBy (fun a b => a ≤ b) (t.map (fun r => r.hazardClass))

/-! ## Vector analytics (`inventory_vector.py`) -/

/-- Sum of squared entries, the radicand of the Euclidean norm. -/
noncomputable def sumsq (v : List ℝ) : ℝ := (v.map (fun x => x ^ 2)).sum

/-- Model of `numpy.linalg.norm(v)` on a 1-D array: the Euclidean norm. -/
noncomputable def linalg_norm (v : List ℝ) : ℝ := Real.sqrt (sumsq v)

/-- Model of `numpy.dot(v1, v2)` on 1-D arrays (the source only calls it on columns of
the same table, which have equal length). -/
noncomputable def dot_product (v1 v2 : List ℝ) : ℝ := (List.zipWith (fun a b => a * b) v1 v2).sum

/-- The single vector-operation failure of the source:
`raise ValueError("Zero vector")` in `unit_vector`; the spec names it
`ZeroVectorError`. -/
inductive VecError where
  | zeroVector
deriving DecidableEq

open scoped Classical in
/-- Model of `InventoryVectorProcessor.unit_vector`: raises on a zero norm, otherwise
returns `v / norm`. -/
noncomputable def unit_vector (v : List ℝ) : Except VecError (List ℝ) :=
  if linalg_norm v = 0 then Except.error VecError.zeroVector
  else Except.ok (v.map (fun x => x / linalg_norm v))

/-- Model of `numpy.clip(x, lo, hi)`. -/
noncomputable def npClip (x lo hi : ℝ) : ℝ := min (max x lo) hi

/-- Model of `math.degrees(x) = x * 180 / π`. -/
noncomputable def degrees (x : ℝ) : ℝ := x * 180 / Real.pi

open scoped Classical in
/-- Model of `InventoryVectorProcessor.angle_between`. The source performs no
zero-vector check: when `denom = 0` the dot product is also `0` (a zero-norm
vector is the all-zeros vector), the float division `0.0/0.0` yields NaN, and
`np.clip`, `math.acos` and `math.degrees` all propagate the NaN, so the
function returns NaN (`Except.ok none`) rather than raising. -/
noncomputable def angle_between (v1 v2 : List ℝ) : Except VecError (Option ℝ) :=
  if linalg_norm v1 * linalg_norm v2 = 0 then Except.ok none
  else
    Except.ok (some (degrees (Real.arccos
      (npClip (dot_product v1 v2 / (linalg_norm v1 * linalg_norm v2)) (-1) 1))))

/-- Ascending order on the pandas `MultiIndex` of an `(A, B)` group-by:
lexicographic on the pair. -/
def joint_pair_le {α β : Type*} [LinearOrder α] [LinearOrder β] (p q : α × β) : Prop :=
  p.1 < q.1 ∨ (p.1 = q.1 ∧ p.2 ≤ q.2)

instance {α β : Type*} [LinearOrder α] [LinearOrder β] :
    DecidableRel (@joint_pair_le α β _ _) := fun p q => by
  unfold joint_pair_le
  infer_instance

/-- Model of `InventoryVector.joint_counts`: `self._data.groupby([c1, c2]).size()`,
applied to the list of `(A, B)` value pairs of the two columns. -/
def joint_counts {α β : Type*} [LinearOrder α] [LinearOrder β]
    (t : List (α × β)) : List ((α × β) × ℕ) :=
  countBy joint_pair_le t

/-- Model of `InventoryVector.joint_probabilities`: `joint_counts(c1, c2) / len(self._data)`. -/
noncomputable def joint_probabilities {α β : Type*} [LinearOrder α] [LinearOrder β]
    (t : List (α × β)) : List ((α × β) × ℝ) :=
  (joint_counts t).map (fun p => (p.1, (p.2 : ℝ) / (t.length : ℝ)))

/-- Model of `InventoryVectorProcessor.generate_combinations`:
`list(combinations(self._data[col].dropna().unique().tolist(), r))`. -/
def generate_combinations {α : Type*} [DecidableEq α] (col : List α) (r : ℕ) :
    List (List α) :=
  combos r (uniqueFS col)

/-- Model of `InventoryVectorProcessor.generate_permutations`:
`list(permutations(self._data[col].dropna().unique().tolist(), r))`. -/
def generate_permutations {α : Type*} [DecidableEq α] (col : List α) (r : ℕ) :
    List (List α) :=
  perms r (uniqueFS col)

/-! ## Data loading (`ui.py`, `data_ingestion.py`) -/

/-- The observable part of a loaded `DataFrame` for the loader claims: its
column names. -/
structure Frame where
  cols : List String
deriving DecidableEq

/-- Model of `ui.load_data`: it wraps `pd.read_csv` in `try/except`; the outcome of the
underlying read is the `Except` argument (an `error` covers a missing,
unreadable or malformed file). On failure it returns `None` instead of
letting the exception escape; on success it returns the frame as read,
performing no column validation of its own. -/
def load_data (readResult : Except String Frame) : Option Frame :=
  match readResult with
  | Except.ok d => some d
  | Except.error _ => none

/-- Model of `data_ingestion.read_air_quality_data`: the same `try/except` wrapper
around `pd.read_csv`, returning `None` on any read failure. -/
def read_air_quality_data (readResult : Except String Frame) : Option Frame :=
  match readResult with
  | Except.ok d => some d
  | Except.error _ => none

/-- The required numeric columns listed in `InventoryNumeric.__init__`. -/
def numericRequiredCols : List String := ["ProductID", "Stock", "Price", "ReorderLevel"]

/-- The column validation of `InventoryNumeric.__init__`: it is the analyzer
constructor, not the loader, that raises (`ValueError`) when a required
column is absent. -/
def inventory_numeric_init (f : Frame) : Except String Frame :=
  if numericRequiredCols.filter (fun c => decide (c ∉ f.cols)) = [] then Except.ok f
  else Except.error "Missing columns"

/-- The in-memory fallback `DataFrame` built by the `inventory_numeric.py`
self-run when `ui.load_data` returns `None`. -/
def numericFallbackFrame : Frame :=
  ⟨["ProductID", "Stock", "Price", "ReorderLevel"]⟩

/-- The self-run caller of `ui.load_data` in `inventory_numeric.py`:
`df = ui.load_data(...)`; `if df is None: df = pd.DataFrame({...})`. -/
def numeric_selftest_frame (readResult : Except String Frame) : Frame :=
  (load_data readResult).getD numericFallbackFrame

/-! ## Helper lemmas for the claims -/

theorem uniqueFS_nil {α : Type*} [DecidableEq α] : uniqueFS ([] : List α) = [] := by
  rw [uniqueFS]

theorem uniqueFS_cons {α : Type*} [DecidableEq α] (a : α) (l : List α) :
    uniqueFS (a :: l) = a :: uniqueFS (l.filter (fun b => decide (b ≠ a))) := by
  rw [uniqueFS]

theorem countBy_keys_sorted {K : Type*} [DecidableEq K] [LinearOrder K] (keys : List K) :
    List.Sorted (fun a b => a < b)
      ((countBy (fun a b => a ≤ b) keys).map Prod.fst) := by
  unfold countBy
  rw [List.map_map]
  have hid : (Prod.fst ∘ fun k => (k, keys.count k)) = (id : K → K) := rfl
  rw [hid, List.map_id]
  have hs : List.Sorted (fun a b => a ≤ b)
      (List.insertionSort (fun a b => a ≤ b) (uniqueFS keys)) :=
    List.sorted_insertionSort _ _
  have hn : (List.insertionSort (fun a b => a ≤ b) (uniqueFS keys)).Nodup :=
    ((List.perm_insertionSort _ _).nodup_iff).mpr (nodup_uniqueFS keys)
  exact List.Sorted.lt_of_le hs hn

/-- The two-row numeric table of the spec scenario:
`{ProductID:[101,102], Stock:[5,50], Price:[10,20], ReorderLevel:[8,8]}`. -/
def numDemoTable : List NumRow :=
  [⟨101, 5, 10, 8⟩, ⟨102, 50, 20, 8⟩]

/-! ## Claim theorems -/

/-- C3: `items_below_reorder` returns exactly the rows with
`Stock < ReorderLevel` (and `[]` when there are none); on the scenario table
`{ProductID:[101,102], Stock:[5,50], Price:[10,20], ReorderLevel:[8,8]}` it
returns only the ProductID-101 row, and the average price there is `15`. -/
theorem c3_items_below_reorder_spec (t : List NumRow) :
    (∀ r : NumRow, r ∈ items_below_reorder t ↔ r ∈ t ∧ r.stock < r.reorderLevel)
    ∧ ((∀ r ∈ t, ¬ r.stock < r.reorderLevel) → items_below_reorder t = [])
    ∧ items_below_reorder numDemoTable = [⟨101, 5, 10, 8⟩]
    ∧ calculate_average_price numDemoTable = some 15 := by
  refine ⟨?_, ?_, ?_, ?_⟩
  · intro r
    simp [items_below_reorder, List.mem_filter]
  · intro h
    simp only [items_below_reorder, List.filter_eq_nil_iff, decide_eq_true_eq]
    exact h
  · rfl
  · show (if _ = 0 then _ else _) = _
    norm_num [numDemoTable]

/-- C4 (amended): on an empty table, `averagePrice`, `medianPrice` and
`stdDevPrice` are NaN (`none`), while `totalStock` is `0` (pandas sums an
empty column to `0`), not NaN. -/
theorem c4_empty_column_spec :
    calculate_average_price [] = none
    ∧ calculate_median_price [] = none
    ∧ calculate_std_price [] = none
    ∧ calculate_total_stock [] = some 0 := by
  refine ⟨rfl, rfl, ?_, rfl⟩
  simp [calculate_std_price]

/-- C4 counterexample: on the empty table `calculate_total_stock` returns the
number `0`, not a "not a number" result, refuting the claim that every one of
the four reductions propagates NaN on an empty column. -/
theorem c4_total_stock_counterexample :
    calculate_total_stock [] = some 0 ∧ calculate_total_stock [] ≠ none := by
  exact ⟨rfl, by simp [calculate_total_stock]⟩

/-- The four-row categorical table of the spec scenario, with `HazardClass`
column `[A, B, A, C]`. -/
def catDemoTable : List CatRow :=
  [⟨101, "Paper Towels", "Cleaning", HazardClass.A, "X"⟩,
   ⟨102, "Cooking Oil", "Kitchen", HazardClass.B, "Y"⟩,
   ⟨103, "Laptop", "Office", HazardClass.A, "Z"⟩,
   ⟨104, "Magnesium", "Lab", HazardClass.C, "W"⟩]

/-- C9: `count_by_hazard_class` maps each hazard class occurring in the table
to its number of occurrences; on a table whose `HazardClass` column is
`[A, B, A, C]` it returns `{A:2, B:1, C:1}`. -/
theorem c9_count_by_hazard_class_spec :
    (∀ (t : List CatRow) (k : HazardClass) (c : ℕ),
        (k, c) ∈ count_by_hazard_class t ↔
          k ∈ t.map (fun r => r.hazardClass)
            ∧ c = (t.map (fun r => r.hazardClass)).count k)
    ∧ count_by_hazard_class catDemoTable =
        [(HazardClass.A, 2), (HazardClass.B, 1), (HazardClass.C, 1)] := by
  constructor
  · intro t k c
    exact mem_countBy _ _ k c
  · simp [count_by_hazard_class, catDemoTable, countBy, uniqueFS_cons, uniqueFS_nil,
      List.insertionSort, List.orderedInsert, List.count_cons]
    decide

/-- C10: every group-by count (`count_by_category`, `count_by_supplier`,
`count_by_hazard_class`) lists its keys in strictly ascending order. -/
theorem c10_groupby_keys_sorted (t : List CatRow) :
    List.Sorted (fun a b => a < b) ((count_by_category t).map Prod.fst)
    ∧ List.Sorted (fun a b => a < b) ((count_by_supplier t).map Prod.fst)
    ∧ List.Sorted (fun a b => a < b) ((count_by_hazard_class t).map Prod.fst) := by
  unfold count_by_category count_by_supplier count_by_hazard_class
  exact ⟨countBy_keys_sorted _, countBy_keys_sorted _, countBy_keys_sorted _⟩

theorem sumsq_nonneg (v : List ℝ) : 0 ≤ sumsq v := by
  refine List.sum_nonneg ?_
  intro x hx
  obtain ⟨y, -, rfl⟩ := List.mem_map.mp hx
  exact sq_nonneg y

theorem sumsq_eq_zero_iff (v : List ℝ) : sumsq v = 0 ↔ ∀ x ∈ v, x = 0 := by
  induction v with
  | nil => simp [sumsq]
  | cons a v ih =>
    have hcons : sumsq (a :: v) = a ^ 2 + sumsq v := by simp [sumsq]
    rw [hcons, add_eq_zero_iff_of_nonneg (sq_nonneg a) (sumsq_nonneg v)]
    simp [ih, sq_eq_zero_iff]

theorem linalg_norm_eq_zero_iff (v : List ℝ) : linalg_norm v = 0 ↔ sumsq v = 0 := by
  unfold linalg_norm
  exact Real.sqrt_eq_zero (sumsq_nonneg v)

theorem dot_product_self (v : List ℝ) : dot_product v v = sumsq v := by
  induction v with
  | nil => simp [dot_product, sumsq]
  | cons a v ih =>
    unfold dot_product sumsq at ih ⊢
    simp only [List.zipWith_cons_cons, List.map_cons, List.sum_cons]
    rw [ih]
    ring

theorem sumsq_neg (v : List ℝ) : sumsq (v.map (fun x => -x)) = sumsq v := by
  unfold sumsq
  rw [List.map_map]
  congr 1
  refine List.map_congr_left ?_
  intro x _
  simp

theorem dot_product_neg_self (v : List ℝ) :
    dot_product v (v.map (fun x => -x)) = -sumsq v := by
  induction v with
  | nil => simp [dot_product, sumsq]
  | cons a v ih =>
    unfold dot_product sumsq at ih ⊢
    simp only [List.map_cons, List.zipWith_cons_cons, List.sum_cons]
    rw [ih]
    ring

theorem degrees_arccos_bounds (x : ℝ) :
    0 ≤ degrees (Real.arccos x) ∧ degrees (Real.arccos x) ≤ 180 := by
  have h0 := Real.arccos_nonneg x
  have h1 := Real.arccos_le_pi x
  have hπ := Real.pi_pos
  unfold degrees
  constructor
  · positivity
  · rw [div_le_iff₀ hπ]
    nlinarith

/-- C1: `unit_vector` fails with the zero-vector error exactly when the
Euclidean norm is `0` (equivalently, when every entry is `0`), and on a
nonzero norm it returns `v` divided entrywise by its norm. -/
theorem c1_unit_vector_spec (v : List ℝ) :
    (unit_vector v = Except.error VecError.zeroVector ↔ linalg_norm v = 0)
    ∧ (linalg_norm v = 0 ↔ ∀ x ∈ v, x = 0)
    ∧ (linalg_norm v ≠ 0 →
        unit_vector v = Except.ok (v.map (fun x => x / linalg_norm v))) := by
  refine ⟨?_, ?_, ?_⟩
  · by_cases h : linalg_norm v = 0
    · simp [unit_vector, h]
    · simp [unit_vector, h]
  · rw [linalg_norm_eq_zero_iff]
    exact sumsq_eq_zero_iff v
  · intro h
    simp [unit_vector, h]

/-- C1 witness: on the nonzero vector `[1]` the hypothesis of the final part
holds and the normalized vector is returned. -/
theorem c1_unit_vector_witness :
    linalg_norm [(1 : ℝ)] ≠ 0
    ∧ unit_vector [(1 : ℝ)]
        = Except.ok ([(1 : ℝ)].map (fun x => x / linalg_norm [(1 : ℝ)])) := by
  have h : linalg_norm [(1 : ℝ)] ≠ 0 := by
    simp [linalg_norm, sumsq]
  exact ⟨h, (c1_unit_vector_spec [(1 : ℝ)]).2.2 h⟩

/-- C2 (amended): `angle_between` never raises: on every input it returns a
value, and when either norm is `0` that value is the NaN produced by the
unchecked `0/0` division, not a `ZeroVectorError`. -/
theorem c2_angle_between_spec (v1 v2 : List ℝ)
    (h : linalg_norm v1 = 0 ∨ linalg_norm v2 = 0) :
    angle_between v1 v2 = Except.ok none
    ∧ (∀ w1 w2 : List ℝ, ∃ res, angle_between w1 w2 = Except.ok res) := by
  constructor
  · rcases h with h | h <;> simp [angle_between, h]
  · intro w1 w2
    by_cases h0 : linalg_norm w1 * linalg_norm w2 = 0
    · exact ⟨none, by simp [angle_between, h0]⟩
    · refine ⟨some (degrees (Real.arccos
        (npClip (dot_product w1 w2 / (linalg_norm w1 * linalg_norm w2)) (-1) 1))), ?_⟩
      simp [angle_between, h0]

/-- C2 counterexample: at `v1 = [0]`, `v2 = [1]` the first norm is `0`, yet
`angle_between` does not fail with the zero-vector error — it returns the NaN
value instead (the source has no zero check in `angle_between`). -/
theorem c2_angle_between_counterexample :
    linalg_norm [(0 : ℝ)] = 0
    ∧ angle_between [(0 : ℝ)] [(1 : ℝ)] = Except.ok none
    ∧ angle_between [(0 : ℝ)] [(1 : ℝ)] ≠ Except.error VecError.zeroVector := by
  have h0 : linalg_norm [(0 : ℝ)] = 0 := by
    simp [linalg_norm, sumsq]
  have hval : angle_between [(0 : ℝ)] [(1 : ℝ)] = Except.ok none := by
    simp [angle_between, h0]
  exact ⟨h0, hval, by simp [hval]⟩

/-- C2 witness: the amended theorem applied at `v1 = [0]`, `v2 = [1]`. -/
theorem c2_angle_between_witness :
    angle_between [(0 : ℝ)] [(1 : ℝ)] = Except.ok none :=
  (c2_angle_between_spec [(0 : ℝ)] [(1 : ℝ)]
    (Or.inl (by simp [linalg_norm, sumsq]))).1

theorem degrees_zero : degrees 0 = 0 := by
  simp [degrees]

theorem degrees_pi : degrees Real.pi = 180 := by
  unfold degrees
  rw [mul_comm, mul_div_assoc, div_self Real.pi_ne_zero, mul_one]

/-- C6: on nonzero norms `angle_between` is exactly
`degrees (acos (clip (dot / (norm·norm)) (-1) 1))`, lies in `[0, 180]`, is `0`
on `(v, v)` and `180` on `(v, -v)`. -/
theorem c6_angle_between_formula (v1 v2 : List ℝ)
    (h1 : linalg_norm v1 ≠ 0) (h2 : linalg_norm v2 ≠ 0) :
    angle_between v1 v2 = Except.ok (some (degrees (Real.arccos
        (npClip (dot_product v1 v2 / (linalg_norm v1 * linalg_norm v2)) (-1) 1))))
    ∧ (∀ θ : ℝ, angle_between v1 v2 = Except.ok (some θ) → 0 ≤ θ ∧ θ ≤ 180)
    ∧ angle_between v1 v1 = Except.ok (some 0)
    ∧ angle_between v1 (v1.map (fun x => -x)) = Except.ok (some 180) := by
  have hd : linalg_norm v1 * linalg_norm v2 ≠ 0 := mul_ne_zero h1 h2
  have hform : angle_between v1 v2 = Except.ok (some (degrees (Real.arccos
      (npClip (dot_product v1 v2 / (linalg_norm v1 * linalg_norm v2)) (-1) 1)))) := by
    simp [angle_between, hd]
  have hmulself : linalg_norm v1 * linalg_norm v1 = sumsq v1 := by
    unfold linalg_norm
    exact Real.mul_self_sqrt (sumsq_nonneg v1)
  have hs0 : sumsq v1 ≠ 0 := fun h0 => h1 ((linalg_norm_eq_zero_iff v1).mpr h0)
  refine ⟨hform, ?_, ?_, ?_⟩
  · intro θ hθ
    rw [hform] at hθ
    simp only [Except.ok.injEq, Option.some.injEq] at hθ
    rw [← hθ]
    exact degrees_arccos_bounds _
  · have hd1 : linalg_norm v1 * linalg_norm v1 ≠ 0 := mul_ne_zero h1 h1
    have hratio : dot_product v1 v1 / (linalg_norm v1 * linalg_norm v1) = 1 := by
      rw [dot_product_self, hmulself, div_self hs0]
    have hclip : npClip 1 (-1) 1 = 1 := by norm_num [npClip]
    simp [angle_between, hd1, hratio, hclip, Real.arccos_one, degrees_zero]
  · have hnormw : linalg_norm (v1.map (fun x => -x)) = linalg_norm v1 := by
      unfold linalg_norm
      rw [sumsq_neg]
    have hdw : linalg_norm v1 * linalg_norm (v1.map (fun x => -x)) ≠ 0 := by
      rw [hnormw]
      exact mul_ne_zero h1 h1
    have hratio : dot_product v1 (v1.map (fun x => -x))
        / (linalg_norm v1 * linalg_norm (v1.map (fun x => -x))) = -1 := by
      rw [hnormw, dot_product_neg_self, hmulself, neg_div, div_self hs0]
    have hclip : npClip (-1) (-1) 1 = -1 := by norm_num [npClip]
    simp [angle_between, hdw, hratio, hclip, Real.arccos_neg_one, degrees_pi]

/-- C6 witness: the formula theorem applied at the nonzero vector `[1]`
(both hypotheses discharged there); its `(v, v)` part evaluates to `0`. -/
theorem c6_angle_between_witness :
    angle_between [(1 : ℝ)] [(1 : ℝ)] = Except.ok (some 0) := by
  have h : linalg_norm [(1 : ℝ)] ≠ 0 := by
    simp [linalg_norm, sumsq]
  exact (c6_angle_between_formula [(1 : ℝ)] [(1 : ℝ)] h h).2.2.1

theorem list_sum_map_div {γ : Type*} (l : List γ) (f : γ → ℝ) (n : ℝ) :
    (l.map (fun x => f x / n)).sum = (l.map f).sum / n := by
  induction l with
  | nil => simp
  | cons a l ih => simp [ih, add_div]

/-- C5: the joint probabilities are the joint counts divided by the number of
rows, and on a non-empty table they sum to exactly `1` over all observed
pairs. -/
theorem c5_joint_probabilities_spec {α β : Type*} [LinearOrder α] [LinearOrder β]
    (t : List (α × β)) (h : t ≠ []) :
    joint_probabilities t
        = (joint_counts t).map (fun p => (p.1, (p.2 : ℝ) / (t.length : ℝ)))
    ∧ ((joint_probabilities t).map Prod.snd).sum = 1 := by
  refine ⟨rfl, ?_⟩
  unfold joint_probabilities
  rw [List.map_map]
  have hcomp : (Prod.snd ∘ fun p : (α × β) × ℕ => (p.1, (p.2 : ℝ) / (t.length : ℝ)))
      = fun p : (α × β) × ℕ => (p.2 : ℝ) / (t.length : ℝ) := rfl
  rw [hcomp]
  have hlen : t.length ≠ 0 := fun h0 => h (List.length_eq_zero.mp h0)
  have hlenR : (t.length : ℝ) ≠ 0 := Nat.cast_ne_zero.mpr hlen
  have hcast : (fun p : (α × β) × ℕ => ((p.2 : ℕ) : ℝ))
      = (fun n : ℕ => (n : ℝ)) ∘ Prod.snd := rfl
  rw [list_sum_map_div (joint_counts t) (fun p => ((p.2 : ℕ) : ℝ)) ((t.length : ℕ) : ℝ),
    hcast, ← List.map_map, ← Nat.cast_list_sum]
  unfold joint_counts
  rw [sum_counts_countBy]
  exact div_self hlenR

/-- C5 witness: the theorem applied to the non-empty one-row table
`[(0, 0)]`. -/
theorem c5_joint_probabilities_witness :
    joint_probabilities [((0 : ℕ), (0 : ℕ))]
        = (joint_counts [((0 : ℕ), (0 : ℕ))]).map
            (fun p => (p.1, (p.2 : ℝ) / (([((0 : ℕ), (0 : ℕ))].length : ℕ) : ℝ)))
    ∧ ((joint_probabilities [((0 : ℕ), (0 : ℕ))]).map Prod.snd).sum = 1 :=
  c5_joint_probabilities_spec [((0 : ℕ), (0 : ℕ))] (by simp)

/-- C7 (amended): when the underlying read fails (missing, unreadable or
malformed file) the loaders return `None` — no exception escapes, no retry,
no partial result — and the numeric self-run caller substitutes its fallback
table; on a successful read the frame is returned as is, with no column
validation: a missing required column is only rejected later, by the
analyzer constructor. -/
theorem c7_loader_spec (readResult : Except String Frame) :
    (∀ e, readResult = Except.error e →
        load_data readResult = none
          ∧ read_air_quality_data readResult = none
          ∧ numeric_selftest_frame readResult = numericFallbackFrame)
    ∧ (∀ f, readResult = Except.ok f →
        load_data readResult = some f ∧ read_air_quality_data readResult = some f)
    ∧ (∀ f : Frame, inventory_numeric_init f = Except.ok f ↔
        ∀ c ∈ numericRequiredCols, c ∈ f.cols) := by
  refine ⟨?_, ?_, ?_⟩
  · intro e he
    subst he
    exact ⟨rfl, rfl, rfl⟩
  · intro f hf
    subst hf
    exact ⟨rfl, rfl⟩
  · intro f
    have key : inventory_numeric_init f = Except.ok f ↔
        numericRequiredCols.filter (fun c => decide (c ∉ f.cols)) = [] := by
      unfold inventory_numeric_init
      by_cases hf : numericRequiredCols.filter (fun c => decide (c ∉ f.cols)) = []
      · simp [hf]
      · simp [hf]
    rw [key, List.filter_eq_nil_iff]
    simp

/-- C7 counterexample: a frame without the required `Stock` column still
loads successfully — `ui.load_data` performs no schema validation, so the
claim that a missing required column makes the load fail is false. -/
theorem c7_loader_counterexample :
    "Stock" ∈ numericRequiredCols
    ∧ "Stock" ∉ (Frame.mk ["ProductID"]).cols
    ∧ load_data (Except.ok (Frame.mk ["ProductID"])) = some (Frame.mk ["ProductID"])
    ∧ load_data (Except.ok (Frame.mk ["ProductID"])) ≠ none := by
  refine ⟨?_, ?_, rfl, ?_⟩
  · simp [numericRequiredCols]
  · simp
  · simp [load_data]

/-- C7 witness: the amended theorem applied to a failing read. -/
theorem c7_loader_witness :
    load_data (Except.error "missing file") = none
    ∧ read_air_quality_data (Except.error "missing file") = none
    ∧ numeric_selftest_frame (Except.error "missing file") = numericFallbackFrame :=
  (c7_loader_spec (Except.error "missing file")).1 "missing file" rfl

/-- C8: `generate_combinations`/`generate_permutations` enumerate exactly the
`r`-length combinations (subsequences) and permutations (duplicate-free
selections) of the column's first-seen distinct values, and on distinct
values the spec scenarios hold:
`combinations([x,y,z], 2) = [(x,y),(x,z),(y,z)]` and
`permutations([x,y], 2) = [(x,y),(y,x)]`. -/
theorem c8_combinations_permutations_spec {α : Type*} [DecidableEq α]
    (col : List α) (r : ℕ) (x y z : α)
    (hxy : x ≠ y) (hxz : x ≠ z) (hyz : y ≠ z) :
    (∀ s, s ∈ generate_combinations col r ↔ s.Sublist (uniqueFS col) ∧ s.length = r)
    ∧ (∀ s, s ∈ generate_permutations col r ↔
        s.length = r ∧ s.Nodup ∧ s ⊆ uniqueFS col)
    ∧ generate_combinations [x, y, z] 2 = [[x, y], [x, z], [y, z]]
    ∧ generate_permutations [x, y] 2 = [[x, y], [y, x]] := by
  have huxyz : uniqueFS [x, y, z] = [x, y, z] := by
    simp [uniqueFS_cons, uniqueFS_nil, List.filter_cons,
      Ne.symm hxy, Ne.symm hxz, Ne.symm hyz]
  have huxy : uniqueFS [x, y] = [x, y] := by
    simp [uniqueFS_cons, uniqueFS_nil, List.filter_cons, Ne.symm hxy]
  refine ⟨?_, ?_, ?_, ?_⟩
  · intro s
    exact mem_combos (uniqueFS col) r s
  · intro s
    exact mem_perms r (uniqueFS col) s (nodup_uniqueFS col)
  · show combos 2 (uniqueFS [x, y, z]) = _
    rw [huxyz]
    rfl
  · show perms 2 (uniqueFS [x, y]) = _
    rw [huxy]
    rfl

/-- C8 witness: the theorem applied to the column `[0, 1, 2]` with the
distinct scenario values `0, 1, 2`; both scenario enumerations evaluated. -/
theorem c8_combinations_permutations_witness :
    generate_combinations [(0 : ℕ), 1, 2] 2 = [[0, 1], [0, 2], [1, 2]]
    ∧ generate_permutations [(0 : ℕ), 1] 2 = [[0, 1], [1, 0]] :=
  ⟨(c8_combinations_permutations_spec [(0 : ℕ), 1, 2] 2 0 1 2
      (by decide) (by decide) (by decide)).2.2.1,
   (c8_combinations_permutations_spec [(0 : ℕ), 1, 2] 2 0 1 2
      (by decide) (by decide) (by decide)).2.2.2⟩

/-- C3 witness: the scenario parts of the theorem, extracted at the scenario
table itself. -/
theorem c3_items_below_reorder_witness :
    items_below_reorder numDemoTable = [⟨101, 5, 10, 8⟩]
    ∧ calculate_average_price numDemoTable = some 15 :=
  ⟨(c3_items_below_reorder_spec numDemoTable).2.2.1,
   (c3_items_below_reorder_spec numDemoTable).2.2.2⟩
